import Mathlib

/-!
Verification of the perceptual duplicate-image detector
(`src/image-duplicate-detector/ImageDuplicateDetector.php`).

The PHP class is shallowly embedded:

* `generateHash` is modelled from the point where GD has decoded and
  resampled the image to the fixed 8×8 grid: the input is the grid of
  RGB pixel values, exactly what the nested `imagecolorat` loops read.
  Pixel arithmetic uses exact rationals in place of PHP floats.
* `hammingDistance` works on the hex-character encoding, as the PHP does:
  per character `hexdec`, XOR, and the Kernighan set-bit counting loop.
  A thrown length-mismatch exception is modelled as `none`.
* The `images` table is a list of records in scan order, the upload
  directory a list of file names; `findDuplicate`, `saveImage` and
  `deleteImage` are state transitions over these.
-/

namespace ImageDetector

/-- PHP `hexdec` on a single character: hex digits map to their value,
any other character contributes 0. -/
def hexDecChar (c : Char) : Nat :=
  if 48 ≤ c.toNat ∧ c.toNat ≤ 57 then c.toNat - 48
  else if 97 ≤ c.toNat ∧ c.toNat ≤ 102 then c.toNat - 97 + 10
  else if 65 ≤ c.toNat ∧ c.toNat ≤ 70 then c.toNat - 65 + 10
  else 0

theorem hexDecChar_lt (c : Char) : hexDecChar c < 16 := by
  unfold hexDecChar
  split <;> [omega; split] <;> [omega; split] <;> omega

/-- The set-bit counting loop of `hammingDistance`
(`while ($xor) { $distance++; $xor &= $xor - 1; }`), run with enough
fuel: each iteration clears the lowest set bit, so `n` iterations always
suffice. -/
def csbFuel : Nat → Nat → Nat
  | 0, _ => 0
  | fuel + 1, n => if n = 0 then 0 else 1 + csbFuel fuel (n &&& (n - 1))

/-- Number of set bits of `n`, as computed by the PHP loop. -/
def countSetBits (n : Nat) : Nat := csbFuel n n

theorem countSetBits_zero : countSetBits 0 = 0 := rfl

/-- PHP `dechex` on a value in `[0, 15]`: digits `0`-`9` then `a`-`f`. -/
def dechexChar (v : Nat) : Char :=
  if v < 10 then Char.ofNat (48 + v) else Char.ofNat (97 + (v - 10))

/-- PHP `bindec` on a bit string, most significant bit first. -/
def bindec (bits : List Bool) : Nat :=
  bits.foldl (fun acc b => 2 * acc + (if b then 1 else 0)) 0

/-- The hex-conversion loop of `generateHash`: the binary string is cut
into chunks of four bits (a final shorter chunk is kept, as `substr`
does), each converted by `dechex (bindec chunk)`. -/
def binToHex : List Bool → List Char
  | [] => []
  | b0 :: b1 :: b2 :: b3 :: rest => dechexChar (bindec [b0, b1, b2, b3]) :: binToHex rest
  | l => [dechexChar (bindec l)]

/-- The four bits a hex digit value stands for, most significant first. -/
def nibbleBits (v : Nat) : List Bool :=
  [v.testBit 3, v.testBit 2, v.testBit 1, v.testBit 0]

/-- The bit sequence a stored hex fingerprint encodes. -/
def toBits (h : List Char) : List Bool :=
  (h.map (fun c => nibbleBits (hexDecChar c))).flatten

/-- Reference bit-level Hamming distance: the number of positions at
which two bit sequences differ (on the zipped common prefix). -/
def bitHammingDistance (a b : List Bool) : Nat :=
  (a.zip b).countP (fun p => p.1 != p.2)

/-- `hammingDistance` of the PHP class, over the hex encodings of two
fingerprints: `none` models the thrown length-mismatch exception. -/
def hammingDistance (hash1 hash2 : List Char) : Option Nat :=
  if hash1.length = hash2.length then
    some (((hash1.zip hash2).map
      (fun p => countSetBits (hexDecChar p.1 ^^^ hexDecChar p.2))).sum)
  else
    none

theorem countSetBits_xor_le_four :
    ∀ x < 16, ∀ y < 16, countSetBits (x ^^^ y) ≤ 4 := by decide

theorem countSetBits_xor_nibble :
    ∀ x < 16, ∀ y < 16,
      countSetBits (x ^^^ y) = ((nibbleBits x).zip (nibbleBits y)).countP (fun p => p.1 != p.2) := by
  decide

theorem hammingDistance_self (a : List Char) : hammingDistance a a = some 0 := by
  unfold hammingDistance
  rw [if_pos rfl]
  congr 1
  induction a with
  | nil => rfl
  | cons c t ih =>
    simp only [List.zip_cons_cons, List.map_cons, List.sum_cons, Nat.xor_self, ih,
      countSetBits_zero]

theorem hammingDistance_comm (a b : List Char) :
    hammingDistance a b = hammingDistance b a := by
  unfold hammingDistance
  rcases eq_or_ne a.length b.length with h | h
  · rw [if_pos h, if_pos h.symm]
    congr 1
    induction a generalizing b with
    | nil =>
      cases b with
      | nil => rfl
      | cons c t => simp at h
    | cons c t ih =>
      cases b with
      | nil => simp at h
      | cons c' t' =>
        simp only [List.length_cons, Nat.succ_inj] at h
        simp only [List.zip_cons_cons, List.map_cons, List.sum_cons, Nat.xor_comm, ih t' h]
  · rw [if_neg h, if_neg (Ne.symm h)]

theorem hamming_sum_le (a b : List Char) :
    ((a.zip b).map (fun p => countSetBits (hexDecChar p.1 ^^^ hexDecChar p.2))).sum
      ≤ 4 * a.length := by
  induction a generalizing b with
  | nil => simp
  | cons c t ih =>
    cases b with
    | nil => simp
    | cons c' t' =>
      simp only [List.zip_cons_cons, List.map_cons, List.sum_cons, List.length_cons]
      have h4 := countSetBits_xor_le_four (hexDecChar c) (hexDecChar_lt c)
        (hexDecChar c') (hexDecChar_lt c')
      have := ih t'
      omega

theorem toBits_cons (c : Char) (t : List Char) :
    toBits (c :: t) = nibbleBits (hexDecChar c) ++ toBits t := by
  simp [toBits]

theorem nibbleBits_length (v : Nat) : (nibbleBits v).length = 4 := rfl

theorem hamming_sum_bits (a b : List Char) (h : a.length = b.length) :
    ((a.zip b).map (fun p => countSetBits (hexDecChar p.1 ^^^ hexDecChar p.2))).sum
      = bitHammingDistance (toBits a) (toBits b) := by
  induction a generalizing b with
  | nil =>
    cases b with
    | nil => rfl
    | cons c t => simp at h
  | cons c t ih =>
    cases b with
    | nil => simp at h
    | cons c' t' =>
      simp only [List.length_cons, Nat.succ_inj] at h
      simp only [List.zip_cons_cons, List.map_cons, List.sum_cons, toBits_cons,
        bitHammingDistance,
        List.zip_append (by simp [nibbleBits_length] : (nibbleBits (hexDecChar c)).length = (nibbleBits (hexDecChar c')).length),
        List.countP_append]
      rw [ih t' h]
      rw [countSetBits_xor_nibble (hexDecChar c) (hexDecChar_lt c)
        (hexDecChar c') (hexDecChar_lt c')]
      rfl

theorem nibble_roundtrip :
    ∀ b0 b1 b2 b3 : Bool,
      hexDecChar (dechexChar (bindec [b0, b1, b2, b3])) = bindec [b0, b1, b2, b3] ∧
      nibbleBits (bindec [b0, b1, b2, b3]) = [b0, b1, b2, b3] := by decide

theorem binToHex_cons4 (b0 b1 b2 b3 : Bool) (rest : List Bool) :
    binToHex (b0 :: b1 :: b2 :: b3 :: rest)
      = dechexChar (bindec [b0, b1, b2, b3]) :: binToHex rest := rfl

theorem toBits_binToHex : ∀ (n : Nat) (l : List Bool), l.length = 4 * n →
    toBits (binToHex l) = l := by
  intro n
  induction n with
  | zero =>
    intro l h
    rw [List.length_eq_zero.mp (by omega : l.length = 0)]
    rfl
  | succ n ih =>
    intro l h
    rcases l with _ | ⟨b0, _ | ⟨b1, _ | ⟨b2, _ | ⟨b3, rest⟩⟩⟩⟩ <;>
      simp only [List.length_cons, List.length_nil] at h
    · omega
    · omega
    · omega
    · omega
    · rw [binToHex_cons4, toBits_cons]
      rw [(nibble_roundtrip b0 b1 b2 b3).1, (nibble_roundtrip b0 b1 b2 b3).2]
      rw [ih rest (by omega)]
      rfl

theorem binToHex_length : ∀ (n : Nat) (l : List Bool), l.length = 4 * n →
    (binToHex l).length = n := by
  intro n
  induction n with
  | zero =>
    intro l h
    rw [List.length_eq_zero.mp (by omega : l.length = 0)]
    rfl
  | succ n ih =>
    intro l h
    rcases l with _ | ⟨b0, _ | ⟨b1, _ | ⟨b2, _ | ⟨b3, rest⟩⟩⟩⟩ <;>
      simp only [List.length_cons, List.length_nil] at h
    · omega
    · omega
    · omega
    · omega
    · rw [binToHex_cons4, List.length_cons, ih rest (by omega)]

/-- One pixel of the 8×8 resampled grid, as GD hands it back:
`imagecolorat` packs the three 8-bit channels, the PHP unpacks them. -/
structure RGB where
  r : Nat
  g : Nat
  b : Nat
deriving DecidableEq

/-- `$gray = ($r + $g + $b) / 3` — exact rational in place of the PHP float. -/
def gray (p : RGB) : ℚ := (p.r + p.g + p.b) / 3

/-- The `$pixels` array: the nested loops run `y` outer, `x` inner over
the 8×8 resampled image, so entry `i` reads pixel `(x, y) = (i % 8, i / 8)`. -/
def pixelList (img : Fin 8 → Fin 8 → RGB) : List ℚ :=
  List.ofFn (fun i : Fin 64 =>
    gray (img ⟨i.val % 8, Nat.mod_lt _ (by norm_num)⟩
              ⟨i.val / 8, Nat.div_lt_of_lt_mul i.isLt⟩))

/-- `$average = array_sum($pixels) / count($pixels)`. -/
def meanIntensity (img : Fin 8 → Fin 8 → RGB) : ℚ :=
  (pixelList img).sum / ((pixelList img).length : ℚ)

/-- The binary `$hash` string: one bit per cell, `1` iff the cell is
strictly brighter than the average. -/
def fingerprintBits (img : Fin 8 → Fin 8 → RGB) : List Bool :=
  (pixelList img).map (fun p => decide (p > meanIntensity img))

/-- `generateHash`, modelled from the decoded and resampled 8×8 grid:
the binary fingerprint converted to its hex encoding. -/
def generateHash (img : Fin 8 → Fin 8 → RGB) : List Char :=
  binToHex (fingerprintBits img)

/-- One row of the `images` table. -/
structure StoredImageRecord where
  id : Nat
  filename : String
  file_path : String
  phash : List Char
  mime_type : String
  file_size : Nat
  upload_date : Nat
deriving DecidableEq

/-- The duplicate-info array `findDuplicate` returns on a hit. -/
structure Match where
  duplicate : Bool
  id : Nat
  filename : String
  file_path : String
  upload_date : Nat
  similarity : ℚ
  hamming_distance : Nat
deriving DecidableEq

/-- The scan loop of `findDuplicate` over the fetched rows.  The outer
`none` models an uncaught length-mismatch exception from
`hammingDistance`; `some none` is the PHP `return null`. -/
def findDuplicateScan (hash : List Char) (threshold : Nat) :
    List StoredImageRecord → Option (Option Match)
  | [] => some none
  | row :: rest =>
    match hammingDistance hash row.phash with
    | none => none
    | some distance =>
      if distance ≤ threshold then
        some (some
          { duplicate := true, id := row.id, filename := row.filename,
            file_path := row.file_path, upload_date := row.upload_date,
            similarity := 100 - (distance * 100 : ℚ) / 64,
            hamming_distance := distance })
      else findDuplicateScan hash threshold rest

/-- `findDuplicate`, modelled on the fingerprint already computed from
the candidate image (the `SELECT` returns the rows in list order). -/
def findDuplicate (images : List StoredImageRecord) (hash : List Char)
    (threshold : Nat) : Option (Option Match) :=
  findDuplicateScan hash threshold images

/-- The persistent state: the `images` table in scan order and the set
of file names present in the upload directory. -/
structure DetectorState where
  images : List StoredImageRecord
  files : List String
deriving DecidableEq

/-- A `$_FILES` element, abstracted to what `saveImage` consumes: the
PHP error code, the client name, the sniffed mime type, the fingerprint
`generateHash` computes from the uploaded bytes, and the byte size. -/
structure UploadFile where
  error : Nat
  name : String
  mimeType : String
  hash : List Char
  size : Nat
deriving DecidableEq

def allowedTypes : List String :=
  ["image/jpeg", "image/png", "image/gif", "image/webp"]

/-- The shapes of the result array `saveImage` returns (plus `exception`
for an uncaught length-mismatch thrown inside the duplicate check). -/
inductive SaveOutcome where
  | uploadError (code : Nat)
  | invalidType
  | exception
  | duplicateDetected (dup : Match)
  | moveFailed
  | dbError
  | saved (id : Nat) (filename : String)
deriving DecidableEq

/-- The persistence tail of `saveImage`: move the uploaded file into the
store, then insert the record; if the insert (or anything else in the
`try` block) fails, `unlink` the just-written file.  `newFilename` stands
for the `uniqid` name, `moveOk`/`dbOk` for the success of
`move_uploaded_file` and of the `INSERT`, `newId` for `lastInsertId`. -/
def persistImage (s : DetectorState) (file : UploadFile) (newFilename : String)
    (moveOk dbOk : Bool) (newId now : Nat) : SaveOutcome × DetectorState :=
  if moveOk = false then (.moveFailed, s)
  else if dbOk then
    (.saved newId newFilename,
      { images := s.images ++
          [{ id := newId, filename := file.name,
             file_path := newFilename, phash := file.hash,
             mime_type := file.mimeType, file_size := file.size,
             upload_date := now }],
        files := if newFilename ∈ s.files then s.files
                 else newFilename :: s.files })
  else
    (.dbError, { images := s.images,
                 files := ((if newFilename ∈ s.files then s.files
                            else newFilename :: s.files).filter
                   (fun p => p != newFilename)) })

/-- `saveImage`: validation, duplicate check at the hard-coded default
threshold 5, then persistence. -/
def saveImage (s : DetectorState) (file : UploadFile) (allowDuplicates : Bool)
    (newFilename : String) (moveOk dbOk : Bool) (newId now : Nat) :
    SaveOutcome × DetectorState :=
  if file.error ≠ 0 then (.uploadError file.error, s)
  else if file.mimeType ∉ allowedTypes then (.invalidType, s)
  else if allowDuplicates = false then
    match findDuplicate s.images file.hash 5 with
    | none => (.exception, s)
    | some (some dup) => (.duplicateDetected dup, s)
    | some none => persistImage s file newFilename moveOk dbOk newId now
  else persistImage s file newFilename moveOk dbOk newId now

theorem findDuplicateScan_cons_eq (f : List Char) (t : Nat)
    (row : StoredImageRecord) (rest : List StoredImageRecord) :
    findDuplicateScan f t (row :: rest) =
      match hammingDistance f row.phash with
      | none => none
      | some distance =>
        if distance ≤ t then
          some (some
            { duplicate := true, id := row.id, filename := row.filename,
              file_path := row.file_path, upload_date := row.upload_date,
              similarity := 100 - (distance * 100 : ℚ) / 64,
              hamming_distance := distance })
        else findDuplicateScan f t rest := rfl

theorem findDuplicateScan_cons_none (f : List Char) (t : Nat)
    (row : StoredImageRecord) (rest : List StoredImageRecord)
    (hd : hammingDistance f row.phash = none) :
    findDuplicateScan f t (row :: rest) = none := by
  rw [findDuplicateScan_cons_eq, hd]

theorem findDuplicateScan_cons_some (f : List Char) (t : Nat)
    (row : StoredImageRecord) (rest : List StoredImageRecord) (d : Nat)
    (hd : hammingDistance f row.phash = some d) :
    findDuplicateScan f t (row :: rest) =
      if d ≤ t then
        some (some
          { duplicate := true, id := row.id, filename := row.filename,
            file_path := row.file_path, upload_date := row.upload_date,
            similarity := 100 - (d * 100 : ℚ) / 64,
            hamming_distance := d })
      else findDuplicateScan f t rest := by
  rw [findDuplicateScan_cons_eq, hd]

theorem findDuplicateScan_eq_none_iff (f : List Char) (t : Nat)
    (l : List StoredImageRecord) :
    findDuplicateScan f t l = some none ↔
      ∀ r ∈ l, ∃ d, hammingDistance f r.phash = some d ∧ t < d := by
  induction l with
  | nil => simp [findDuplicateScan]
  | cons row rest ih =>
    cases hd : hammingDistance f row.phash with
    | none =>
      rw [findDuplicateScan_cons_none f t row rest hd]
      constructor
      · intro h; simp at h
      · intro h
        obtain ⟨d, hd2, _⟩ := h row (by simp)
        rw [hd] at hd2
        cases hd2
    | some d =>
      rw [findDuplicateScan_cons_some f t row rest d hd]
      by_cases hle : d ≤ t
      · rw [if_pos hle]
        constructor
        · intro h; simp at h
        · intro h
          obtain ⟨d', hd2, hlt⟩ := h row (by simp)
          rw [hd] at hd2
          injection hd2 with hd2
          omega
      · rw [if_neg hle, ih]
        constructor
        · intro h r hr
          rcases List.mem_cons.mp hr with rfl | hr'
          · exact ⟨d, hd, by omega⟩
          · exact h r hr'
        · intro h r hr
          exact h r (List.mem_cons_of_mem _ hr)

theorem findDuplicateScan_some_spec (f : List Char) (t : Nat) :
    ∀ (l : List StoredImageRecord) (m : Match),
      findDuplicateScan f t l = some (some m) →
      ∃ pre row post, l = pre ++ row :: post ∧
        hammingDistance f row.phash = some m.hamming_distance ∧
        m.hamming_distance ≤ t ∧
        (∀ r ∈ pre, ∃ d, hammingDistance f r.phash = some d ∧ t < d) := by
  intro l
  induction l with
  | nil => intro m h; cases h
  | cons row rest ih =>
    intro m h
    cases hd : hammingDistance f row.phash with
    | none => rw [findDuplicateScan_cons_none f t row rest hd] at h; cases h
    | some d =>
      rw [findDuplicateScan_cons_some f t row rest d hd] at h
      by_cases hle : d ≤ t
      · rw [if_pos hle] at h
        injection h with h
        injection h with h
        refine ⟨[], row, rest, rfl, ?_, ?_, by simp⟩
        · rw [← h, hd]
        · rw [← h]; exact hle
      · rw [if_neg hle] at h
        obtain ⟨pre, row', post, hsplit, hrow, hm, hpre⟩ := ih m h
        refine ⟨row :: pre, row', post, by rw [hsplit]; rfl, hrow, hm, ?_⟩
        intro r hr
        rcases List.mem_cons.mp hr with rfl | hr'
        · exact ⟨d, hd, by omega⟩
        · exact hpre r hr'

theorem findDuplicateScan_append_none (f : List Char) (t : Nat)
    (l1 l2 : List StoredImageRecord) (h : findDuplicateScan f t l1 = some none) :
    findDuplicateScan f t (l1 ++ l2) = findDuplicateScan f t l2 := by
  induction l1 with
  | nil => rfl
  | cons row rest ih =>
    cases hd : hammingDistance f row.phash with
    | none => rw [findDuplicateScan_cons_none f t row rest hd] at h; cases h
    | some d =>
      rw [findDuplicateScan_cons_some f t row rest d hd] at h
      rw [List.cons_append, findDuplicateScan_cons_some f t row (rest ++ l2) d hd]
      by_cases hle : d ≤ t
      · rw [if_pos hle] at h; simp at h
      · rw [if_neg hle] at h
        rw [if_neg hle]
        exact ih h

theorem findDuplicateScan_total (f : List Char) (t : Nat)
    (l : List StoredImageRecord)
    (h : ∀ r ∈ l, ∃ d, hammingDistance f r.phash = some d) :
    findDuplicateScan f t l = some none ∨
      ∃ m, findDuplicateScan f t l = some (some m) ∧ m.hamming_distance ≤ t := by
  induction l with
  | nil => exact Or.inl rfl
  | cons row rest ih =>
    obtain ⟨d, hd⟩ := h row (by simp)
    rw [findDuplicateScan_cons_some f t row rest d hd]
    by_cases hle : d ≤ t
    · rw [if_pos hle]
      exact Or.inr ⟨_, rfl, hle⟩
    · rw [if_neg hle]
      exact ih (fun r hr => h r (List.mem_cons_of_mem _ hr))

/-- `deleteImage`: fetch the first row with the id; absent ⇒ `false` and
no change; present ⇒ `unlink` its file when it exists, `DELETE` the rows
with that id, return `true`. -/
def deleteImage (s : DetectorState) (id : Nat) : Bool × DetectorState :=
  match s.images.find? (fun r => r.id == id) with
  | none => (false, s)
  | some image =>
    let files1 := if image.file_path ∈ s.files
      then s.files.filter (fun p => p != image.file_path)
      else s.files
    (true, { images := s.images.filter (fun r => !(r.id == id)), files := files1 })

theorem hammingDistance_eq_toBits (a b : List Char) (h : a.length = b.length) :
    hammingDistance a b = some (bitHammingDistance (toBits a) (toBits b)) := by
  unfold hammingDistance
  rw [if_pos h, hamming_sum_bits a b h]

/-- C5: for two fingerprints with hex encodings of equal length (so both
encode the same bit-length `L = 4 * length`), `hammingDistance` is defined,
its value lies in `[0, L]`, it is `0` on equal arguments, and it is
symmetric. -/
theorem hammingDistance_bounds_spec (a b : List Char) (h : a.length = b.length) :
    (∃ d, hammingDistance a b = some d ∧ d ≤ 4 * a.length) ∧
    hammingDistance a a = some 0 ∧
    hammingDistance a b = hammingDistance b a := by
  refine ⟨⟨_, ?_, hamming_sum_le a b⟩, hammingDistance_self a, hammingDistance_comm a b⟩
  unfold hammingDistance
  rw [if_pos h]

theorem hammingDistance_bounds_spec_witness :
    (∃ d, hammingDistance ['0'] ['7'] = some d ∧ d ≤ 4 * (['0'] : List Char).length) ∧
    hammingDistance ['0'] ['0'] = some 0 ∧
    hammingDistance ['0'] ['7'] = hammingDistance ['7'] ['0'] :=
  hammingDistance_bounds_spec ['0'] ['7'] (by decide)

/-- C6: `hammingDistance` fails (the PHP throws) exactly when the two hex
encodings have different lengths; on equal lengths it returns the number of
positions at which the encoded bit sequences differ. -/
theorem hammingDistance_mismatch_spec (a b : List Char) :
    (hammingDistance a b = none ↔ a.length ≠ b.length) ∧
    (a.length = b.length →
      hammingDistance a b = some (bitHammingDistance (toBits a) (toBits b))) := by
  constructor
  · by_cases h : a.length = b.length
    · unfold hammingDistance
      rw [if_pos h]
      simp [h]
    · unfold hammingDistance
      rw [if_neg h]
      simp [h]
  · exact fun h => hammingDistance_eq_toBits a b h

theorem hammingDistance_mismatch_spec_witness :
    hammingDistance ['a'] ['a', 'b'] = none :=
  (hammingDistance_mismatch_spec ['a'] ['a', 'b']).1.mpr (by decide)

/-- C9: on two 64-bit fingerprints, the hex-digit implementation of the
distance (per-digit XOR and set-bit count over the 16-character encodings)
agrees with the reference bit-level Hamming distance. -/
theorem hammingDistance_hex_refinement (a b : List Bool)
    (ha : a.length = 64) (hb : b.length = 64) :
    (binToHex a).length = 16 ∧ (binToHex b).length = 16 ∧
    hammingDistance (binToHex a) (binToHex b) = some (bitHammingDistance a b) := by
  have ha' : a.length = 4 * 16 := by omega
  have hb' : b.length = 4 * 16 := by omega
  have l1 := binToHex_length 16 a ha'
  have l2 := binToHex_length 16 b hb'
  refine ⟨l1, l2, ?_⟩
  rw [hammingDistance_eq_toBits _ _ (by rw [l1, l2])]
  rw [toBits_binToHex 16 a ha', toBits_binToHex 16 b hb']

def wBitsA : List Bool := List.replicate 64 false

def wBitsB : List Bool := true :: List.replicate 63 false

theorem hammingDistance_hex_refinement_witness :
    (binToHex wBitsA).length = 16 ∧ (binToHex wBitsB).length = 16 ∧
    hammingDistance (binToHex wBitsA) (binToHex wBitsB)
      = some (bitHammingDistance wBitsA wBitsB) :=
  hammingDistance_hex_refinement wBitsA wBitsB (by decide) (by decide)

def zero16 : List Char := List.replicate 16 '0'

def cexRecA : StoredImageRecord :=
  { id := 1, filename := "a.png", file_path := "fa.png",
    phash := '7' :: List.replicate 15 '0',
    mime_type := "image/png", file_size := 10, upload_date := 1 }

def cexRecB : StoredImageRecord :=
  { id := 2, filename := "b.png", file_path := "fb.png",
    phash := '1' :: List.replicate 15 '0',
    mime_type := "image/png", file_size := 11, upload_date := 2 }

/-- C1 counterexample: with stored fingerprints at distances 3 and 1 from the
candidate and threshold 5, the scan returns the first hit, at distance 3 —
not the minimum distance 1, which another stored fingerprint attains. -/
theorem findDuplicate_not_minimum :
    (findDuplicate [cexRecA, cexRecB] zero16 5).map (Option.map Match.hamming_distance)
        = some (some 3) ∧
    hammingDistance zero16 cexRecB.phash = some 1 ∧
    (1 : Nat) ≤ 5 ∧ (3 : Nat) ≠ 1 := by decide

/-- C1 (amended): `findDuplicate` returns `None` exactly when every stored
fingerprint compares (without exception) at a distance above the threshold —
in particular on an empty index; a returned Match comes from the first
stored record in scan order within the threshold: its reported distance is
that record's distance and is ≤ the threshold, but not necessarily the
minimum over the index. -/
theorem findDuplicate_first_hit_spec (images : List StoredImageRecord)
    (f : List Char) (t : Nat) :
    (findDuplicate images f t = some none ↔
      ∀ r ∈ images, ∃ d, hammingDistance f r.phash = some d ∧ t < d) ∧
    (∀ m, findDuplicate images f t = some (some m) →
      ∃ pre row post, images = pre ++ row :: post ∧
        hammingDistance f row.phash = some m.hamming_distance ∧
        m.hamming_distance ≤ t ∧
        (∀ r ∈ pre, ∃ d, hammingDistance f r.phash = some d ∧ t < d)) :=
  ⟨findDuplicateScan_eq_none_iff f t images,
    fun m h => findDuplicateScan_some_spec f t images m h⟩

theorem findDuplicate_first_hit_spec_witness :
    findDuplicate [cexRecA] zero16 0 = some none :=
  (findDuplicate_first_hit_spec [cexRecA] zero16 0).1.mpr (by
    intro r hr
    rw [List.mem_singleton] at hr
    subst hr
    exact ⟨3, by decide, by decide⟩)

theorem findDuplicateScan_mono (f : List Char) (t1 t2 : Nat) (h12 : t1 ≤ t2) :
    ∀ (l : List StoredImageRecord) (m : Match),
      findDuplicateScan f t1 l = some (some m) →
      ∃ m2, findDuplicateScan f t2 l = some (some m2) := by
  intro l
  induction l with
  | nil => intro m h; cases h
  | cons row rest ih =>
    intro m h
    cases hd : hammingDistance f row.phash with
    | none => rw [findDuplicateScan_cons_none f t1 row rest hd] at h; cases h
    | some d =>
      by_cases hle2 : d ≤ t2
      · rw [findDuplicateScan_cons_some f t2 row rest d hd, if_pos hle2]
        exact ⟨_, rfl⟩
      · have hle1 : ¬ d ≤ t1 := by omega
        rw [findDuplicateScan_cons_some f t1 row rest d hd, if_neg hle1] at h
        rw [findDuplicateScan_cons_some f t2 row rest d hd, if_neg hle2]
        exact ih m h

/-- C7: threshold monotonicity — if `findDuplicate` returns a Match at
threshold `t1`, it also returns a Match (possibly for a different record) at
every larger threshold `t2`. -/
theorem findDuplicate_threshold_mono (images : List StoredImageRecord)
    (f : List Char) (t1 t2 : Nat)
    (h : ∃ m, findDuplicate images f t1 = some (some m)) (hlt : t1 < t2) :
    ∃ m2, findDuplicate images f t2 = some (some m2) := by
  obtain ⟨m, hm⟩ := h
  exact findDuplicateScan_mono f t1 t2 (by omega) images m hm

theorem findDuplicate_threshold_mono_witness :
    ∃ m2, findDuplicate [cexRecB] zero16 2 = some (some m2) := by
  refine findDuplicate_threshold_mono [cexRecB] zero16 1 2 ?_ (by omega)
  have h : (findDuplicate [cexRecB] zero16 1).map (Option.map Match.hamming_distance)
      = some (some 1) := by decide
  cases hfd : findDuplicate [cexRecB] zero16 1 with
  | none => rw [hfd] at h; cases h
  | some o =>
    cases o with
    | none => rw [hfd] at h; simp at h
    | some m => exact ⟨m, rfl⟩

theorem findDuplicateScan_append_some (f : List Char) (t : Nat)
    (l1 l2 : List StoredImageRecord) (m : Match)
    (h : findDuplicateScan f t l1 = some (some m)) :
    findDuplicateScan f t (l1 ++ l2) = some (some m) := by
  induction l1 with
  | nil => cases h
  | cons row rest ih =>
    cases hd : hammingDistance f row.phash with
    | none => rw [findDuplicateScan_cons_none f t row rest hd] at h; cases h
    | some d =>
      rw [findDuplicateScan_cons_some f t row rest d hd] at h
      rw [List.cons_append, findDuplicateScan_cons_some f t row (rest ++ l2) d hd]
      by_cases hle : d ≤ t
      · rw [if_pos hle] at h
        rw [if_pos hle]
        exact h
      · rw [if_neg hle] at h
        rw [if_neg hle]
        exact ih h

/-- C3: when `allowDuplicates` is false and the duplicate check reports a
match, `saveImage` returns the duplicate-detected failure carrying that
match, and the state — upload directory and `images` table — is unchanged:
nothing was persisted. -/
theorem saveImage_duplicate_no_persist (s : DetectorState) (file : UploadFile)
    (m : Match) (nf : String) (mo dbo : Bool) (newId now : Nat)
    (he : file.error = 0) (hm : file.mimeType ∈ allowedTypes)
    (hd : findDuplicate s.images file.hash 5 = some (some m)) :
    saveImage s file false nf mo dbo newId now
      = (SaveOutcome.duplicateDetected m, s) := by
  unfold saveImage
  rw [if_neg (fun hne => hne he), if_neg (fun hno => hno hm), if_pos rfl, hd]

def upFile : UploadFile :=
  { error := 0, name := "up.png", mimeType := "image/png", hash := zero16, size := 5 }

def dupState : DetectorState :=
  { images := [{ id := 3, filename := "c.png", file_path := "fc.png",
                 phash := zero16, mime_type := "image/png", file_size := 7,
                 upload_date := 4 }],
    files := ["fc.png"] }

theorem saveImage_duplicate_no_persist_witness :
    ∃ m, saveImage dupState upFile false "img_x" true true 9 9
      = (SaveOutcome.duplicateDetected m, dupState) := by
  have h : (findDuplicate dupState.images upFile.hash 5).map
      (Option.map Match.hamming_distance) = some (some 0) := by decide
  cases hfd : findDuplicate dupState.images upFile.hash 5 with
  | none => rw [hfd] at h; cases h
  | some o =>
    cases o with
    | none => rw [hfd] at h; simp at h
    | some m =>
      exact ⟨m, saveImage_duplicate_no_persist dupState upFile m "img_x" true true 9 9
        rfl (by decide) hfd⟩

/-- C4: if the `INSERT` (or anything inside the `try` block) fails after
`move_uploaded_file` succeeded, the written file is unlinked before the
error is returned: for a fresh generated filename the state is exactly the
pre-call state — no orphan file, no index entry. -/
theorem saveImage_db_fail_rollback (s : DetectorState) (file : UploadFile)
    (allowDup : Bool) (nf : String) (newId now : Nat)
    (he : file.error = 0) (hm : file.mimeType ∈ allowedTypes)
    (hdup : allowDup = true ∨ findDuplicate s.images file.hash 5 = some none)
    (hfresh : nf ∉ s.files) :
    saveImage s file allowDup nf true false newId now = (SaveOutcome.dbError, s) := by
  have hfilter : (nf :: s.files).filter (fun p => p != nf) = s.files := by
    rw [List.filter_cons]
    simp only [bne_self_eq_false, if_false, Bool.false_eq_true]
    exact List.filter_eq_self.mpr (fun a ha => by
      simp only [bne_iff_ne, ne_eq]
      intro heq
      exact hfresh (heq ▸ ha))
  have hpersist : persistImage s file nf true false newId now
      = (SaveOutcome.dbError, s) := by
    unfold persistImage
    rw [if_neg (by simp), if_neg (by simp), if_neg hfresh, hfilter]
  cases allowDup with
  | true =>
    unfold saveImage
    rw [if_neg (fun hne => hne he), if_neg (fun hno => hno hm),
      if_neg (by simp)]
    exact hpersist
  | false =>
    rcases hdup with hcontra | hnone
    · cases hcontra
    · unfold saveImage
      rw [if_neg (fun hne => hne he), if_neg (fun hno => hno hm), if_pos rfl, hnone]
      exact hpersist

def emptyState : DetectorState := { images := [], files := [] }

theorem saveImage_db_fail_rollback_witness :
    saveImage emptyState upFile true "img_w" true false 3 4
      = (SaveOutcome.dbError, emptyState) :=
  saveImage_db_fail_rollback emptyState upFile true "img_w" 3 4
    rfl (by decide) (Or.inl rfl) (by decide)

theorem findDuplicateScan_singleton_self (f : List Char) (t : Nat)
    (row : StoredImageRecord) (hrow : row.phash = f) :
    ∃ m, findDuplicateScan f t [row] = some (some m) ∧ m.hamming_distance = 0 := by
  have h0 : hammingDistance f row.phash = some 0 := by
    rw [hrow]
    exact hammingDistance_self f
  rw [findDuplicateScan_cons_some f t row [] 0 h0, if_pos (Nat.zero_le t)]
  exact ⟨_, rfl, rfl⟩

/-- C2 (amended): after a successful non-duplicate `saveImage` of `X`,
`findDuplicate` with `X`'s own fingerprint returns a Match at every
threshold `t`, with reported distance ≤ `t`; when `t` is at most the
duplicate-check threshold used by `saveImage` (5), the reported distance
is exactly 0.  (For `t > 5` an older record at distance in `(5, t]` can be
the first hit instead, so distance 0 is not guaranteed.) -/
theorem saveImage_self_match (s : DetectorState) (file : UploadFile)
    (nf : String) (mo dbo : Bool) (newId now outId : Nat) (outName : String)
    (s2 : DetectorState)
    (hsave : saveImage s file false nf mo dbo newId now
      = (SaveOutcome.saved outId outName, s2)) :
    (∀ t, ∃ m, findDuplicate s2.images file.hash t = some (some m) ∧
      m.hamming_distance ≤ t) ∧
    (∀ t, t ≤ 5 → ∃ m, findDuplicate s2.images file.hash t = some (some m) ∧
      m.hamming_distance = 0) := by
  unfold saveImage at hsave
  split at hsave
  · simp at hsave
  · split at hsave
    · simp at hsave
    · split at hsave
      · split at hsave
        · simp at hsave
        · simp at hsave
        · rename_i heq
          unfold persistImage at hsave
          split at hsave
          · simp at hsave
          · split at hsave
            · rw [Prod.mk.injEq] at hsave
              obtain ⟨houtcome, hstate⟩ := hsave
              subst hstate
              have hall : ∀ r ∈ s.images,
                  ∃ d, hammingDistance file.hash r.phash = some d ∧ 5 < d :=
                (findDuplicateScan_eq_none_iff file.hash 5 s.images).mp heq
              constructor
              · intro t
                rcases findDuplicateScan_total file.hash t s.images
                    (fun r hr => ⟨(hall r hr).choose, (hall r hr).choose_spec.1⟩) with
                  hnone | ⟨m, hm, hle⟩
                · obtain ⟨m0, hm0, hd0⟩ := findDuplicateScan_singleton_self file.hash t
                    { id := newId, filename := file.name, file_path := nf,
                      phash := file.hash, mime_type := file.mimeType,
                      file_size := file.size, upload_date := now } rfl
                  refine ⟨m0, ?_, ?_⟩
                  · show findDuplicateScan file.hash t (s.images ++ [_]) = _
                    rw [findDuplicateScan_append_none file.hash t _ _ hnone]
                    exact hm0
                  · rw [hd0]
                    exact Nat.zero_le t
                · refine ⟨m, ?_, hle⟩
                  show findDuplicateScan file.hash t (s.images ++ [_]) = _
                  exact findDuplicateScan_append_some file.hash t _ _ m hm
              · intro t ht
                have hnone : findDuplicateScan file.hash t s.images = some none :=
                  (findDuplicateScan_eq_none_iff file.hash t s.images).mpr
                    (fun r hr => by
                      obtain ⟨d, hd, h5⟩ := hall r hr
                      exact ⟨d, hd, by omega⟩)
                obtain ⟨m0, hm0, hd0⟩ := findDuplicateScan_singleton_self file.hash t
                  { id := newId, filename := file.name, file_path := nf,
                    phash := file.hash, mime_type := file.mimeType,
                    file_size := file.size, upload_date := now } rfl
                refine ⟨m0, ?_, hd0⟩
                show findDuplicateScan file.hash t (s.images ++ [_]) = _
                rw [findDuplicateScan_append_none file.hash t _ _ hnone]
                exact hm0
            · simp at hsave
      · rename_i hcontra
        exact absurd rfl hcontra

def rec7 : StoredImageRecord :=
  { id := 1, filename := "far.png", file_path := "far.png",
    phash := '7' :: (List.replicate 14 '0' ++ List.cons 'f' []),
    mime_type := "image/png", file_size := 9, upload_date := 1 }

def preState : DetectorState := { images := [rec7], files := ["far.png"] }

/-- C2 counterexample: a record at distance 7 (> 5, so `saveImage` accepts
the upload as a non-duplicate) is the first hit when `findDuplicate` is
then called with the saved image's own fingerprint at threshold 10: the
reported distance is 7, not 0. -/
theorem saveImage_self_match_counterexample :
    (saveImage preState upFile false "img_n" true true 2 9).1
        = SaveOutcome.saved 2 "img_n" ∧
    (findDuplicate (saveImage preState upFile false "img_n" true true 2 9).2.images
        upFile.hash 10).map (Option.map Match.hamming_distance) = some (some 7) ∧
    (7 : Nat) ≠ 0 := by decide

def savedRec : StoredImageRecord :=
  { id := 1, filename := "up.png", file_path := "img_1", phash := zero16,
    mime_type := "image/png", file_size := 5, upload_date := 0 }

def savedState : DetectorState := { images := [savedRec], files := ["img_1"] }

theorem saveImage_self_match_witness :
    ∃ m, findDuplicate savedState.images upFile.hash 5 = some (some m) ∧
      m.hamming_distance = 0 :=
  (saveImage_self_match emptyState upFile "img_1" true true 1 0 1 "img_1" savedState
    (by decide)).2 5 (by omega)

/-- C10: `deleteImage` on an id with no stored record returns `false` and
changes nothing; when a record with the id exists, it returns `true`, no
record with that id survives in the table, and the found record's file is
no longer present in the upload directory. -/
theorem deleteImage_spec (s : DetectorState) (idv : Nat) :
    ((∀ r ∈ s.images, r.id ≠ idv) → deleteImage s idv = (false, s)) ∧
    (∀ r ∈ s.images, r.id = idv →
      (deleteImage s idv).1 = true ∧
      (∀ r2 ∈ (deleteImage s idv).2.images, r2.id ≠ idv) ∧
      (∀ img, s.images.find? (fun x => x.id == idv) = some img →
        img.file_path ∉ (deleteImage s idv).2.files)) := by
  constructor
  · intro h
    have hnone : s.images.find? (fun r => r.id == idv) = none :=
      List.find?_eq_none.mpr (fun a ha => by simpa using h a ha)
    unfold deleteImage
    rw [hnone]
  · intro r hr hid
    have hsome : (s.images.find? (fun x => x.id == idv)).isSome :=
      List.find?_isSome.mpr ⟨r, hr, by simp [hid]⟩
    obtain ⟨img, himg⟩ := Option.isSome_iff_exists.mp hsome
    have hdel : deleteImage s idv = (true,
        { images := s.images.filter (fun x => !(x.id == idv)),
          files := if img.file_path ∈ s.files
            then s.files.filter (fun p => p != img.file_path)
            else s.files }) := by
      unfold deleteImage
      rw [himg]
    rw [hdel]
    refine ⟨rfl, ?_, ?_⟩
    · intro r2 hr2
      simp only [List.mem_filter] at hr2
      obtain ⟨_, hbeq⟩ := hr2
      simpa using hbeq
    · intro img2 himg2
      rw [himg] at himg2
      injection himg2 with himg2
      subst himg2
      show img.file_path ∉ (if img.file_path ∈ s.files
        then s.files.filter (fun p => p != img.file_path) else s.files)
      by_cases hmem : img.file_path ∈ s.files
      · rw [if_pos hmem]
        intro hin
        simp only [List.mem_filter] at hin
        simp at hin
      · rw [if_neg hmem]
        exact hmem

theorem deleteImage_spec_witness :
    deleteImage dupState 99 = (false, dupState) :=
  (deleteImage_spec dupState 99).1 (by decide)

/-- The resampled cell a fingerprint bit reads: bit `i` comes from pixel
`(x, y) = (i % 8, i / 8)` of the 8×8 grid. -/
def cellAt (img : Fin 8 → Fin 8 → RGB) (i : Fin 64) : RGB :=
  img ⟨(i : Nat) % 8, Nat.mod_lt _ (by norm_num)⟩
      ⟨(i : Nat) / 8, Nat.div_lt_of_lt_mul i.isLt⟩

/-- C8: the binary fingerprint has exactly 8 × 8 = 64 bits (hex encoding:
16 digits); the intensity of each cell is the plain average of its red,
green and blue channels, and bit `i` is set exactly when cell `i`'s
intensity is strictly greater than the mean intensity over all 64 cells. -/
theorem generateHash_spec (img : Fin 8 → Fin 8 → RGB) :
    (fingerprintBits img).length = 64 ∧
    (generateHash img).length = 16 ∧
    (∀ i : Fin 64, (fingerprintBits img)[(i : Nat)]?
        = some (decide
            ((((cellAt img i).r + (cellAt img i).g + (cellAt img i).b : ℚ) / 3)
              > meanIntensity img))) ∧
    meanIntensity img = (pixelList img).sum / 64 := by
  have hpix : (pixelList img).length = 64 := by
    unfold pixelList
    rw [List.length_ofFn]
  have hlen : (fingerprintBits img).length = 64 := by
    unfold fingerprintBits
    rw [List.length_map, hpix]
  refine ⟨hlen, ?_, ?_, ?_⟩
  · unfold generateHash
    exact binToHex_length 16 _ (by rw [hlen])
  · intro i
    unfold fingerprintBits pixelList
    rw [List.getElem?_map, List.getElem?_ofFn, List.ofFnNthVal, dif_pos i.isLt]
    rfl
  · unfold meanIntensity
    rw [hpix]
    norm_num
